import Mathlib

/-!
Shallow embedding of the flow-field renderer of this repository
(src/tools/flow_field.py and src/tools/perlin.py).

Modelling conventions:
* machine floats are idealised as exact rationals (ℚ);
* python `int(...)` / numpy `astype(int)` is truncation toward zero (`pyInt`);
* `np.round` is round-half-to-even (`npRound`);
* the transcendental primitives the code calls (`math.cos`, `math.sin`,
  `np.arctan2`, `math.sqrt`) are opaque parameters, bundled in `MathOracle`,
  so every definition stays executable;
* the process-wide python `random` module is modelled as an explicit state
  machine (`RandomImpl`, state tokens in ℕ) threaded exactly where the source
  reads it; `random.seed k` replaces the state by `impl.seedFn k`;
* the numpy random streams used by `perlin.py` appear as rational-valued
  lattice samples: `RandomState(seed + o).rand` becomes the function
  `npRandFor (seed + o)`, and the unseeded global `np.random.rand` stream
  becomes the `ambient` parameter;
* the PIL canvas is modelled as the background colour plus the ordered list
  of `draw.line` calls (`DrawOp`) the code emits; PIL rasterisation itself is
  external to the repository;
* numpy's `np.zeros` raises on negative dimensions, so `build_grid` and
  `render` return `Except String`.
-/

namespace FlowField

/-- Python `int(x)` and numpy `astype(int)`: truncation toward zero. -/
def pyInt (q : ℚ) : ℤ := if 0 ≤ q then ⌊q⌋ else ⌈q⌉

/-- numpy `np.round`: round half to even. -/
def npRound (q : ℚ) : ℤ :=
  let f := ⌊q⌋
  let r := q - f
  if r < 1/2 then f
  else if 1/2 < r then f + 1
  else if f % 2 = 0 then f else f + 1

/-- The exact value of the IEEE-754 double `np.pi` / `math.pi`. -/
def npPi : ℚ := 884279719003555 / 281474976710656

/-- The transcendental primitives called by the source, kept opaque. -/
structure MathOracle where
  cos : ℚ → ℚ
  sin : ℚ → ℚ
  atan2 : ℚ → ℚ → ℚ
  sqrt : ℚ → ℚ

/-- Abstract interface to the process-wide python `random` module: states are
opaque tokens in ℕ; `seedFn k` is the state right after `random.seed(k)`;
`uniform a b s` returns the value of `random.uniform(a, b)` run in state `s`
together with the successor state; `randomFn` models `random.random()`. -/
structure RandomImpl where
  seedFn : ℤ → ℕ
  uniform : ℚ → ℚ → ℕ → ℚ × ℕ
  randomFn : ℕ → ℚ × ℕ

/-! ## perlin.py -/

/-- perlin.py `interpolant`: the quintic smoothstep `t³(t(6t−15)+10)`. -/
def interpolant (t : ℚ) : ℚ := t * t * t * (t * (t * 6 - 15) + 10)

/-- Gradient at a lattice point: `angles = 2π·rand`, gradient `(cos, sin)`
(perlin.py lines 31–36, with the random lattice samples abstracted). -/
def gradAt (oracle : MathOracle) (rand : ℕ → ℕ → ℚ) (y x : ℕ) : ℚ × ℚ :=
  (oracle.cos (2 * npPi * rand y x), oracle.sin (2 * npPi * rand y x))

/-- One output pixel of perlin.py `single_octave`: pixel `(i, j)` of an `h×w`
output at lattice resolution `(resY, resX)`.  `X`/`Y` come from
`np.linspace(0, res, size, endpoint=False)`, i.e. `res·j/w`; `xi = int(X)`;
then the four corner dot products are blended with smoothstep weights. -/
def singleOctavePixel (oracle : MathOracle) (rand : ℕ → ℕ → ℚ)
    (resY resX h w i j : ℕ) : ℚ :=
  let X : ℚ := (resX : ℚ) * j / w
  let Y : ℚ := (resY : ℚ) * i / h
  let xi : ℕ := (pyInt X).toNat
  let yi : ℕ := (pyInt Y).toNat
  let xf := X - (xi : ℚ)
  let yf := Y - (yi : ℚ)
  let g00 := gradAt oracle rand yi xi
  let g10 := gradAt oracle rand yi (xi + 1)
  let g01 := gradAt oracle rand (yi + 1) xi
  let g11 := gradAt oracle rand (yi + 1) (xi + 1)
  let dot00 := g00.1 * xf + g00.2 * yf
  let dot10 := g10.1 * (xf - 1) + g10.2 * yf
  let dot01 := g01.1 * xf + g01.2 * (yf - 1)
  let dot11 := g11.1 * (xf - 1) + g11.2 * (yf - 1)
  let u := interpolant xf
  let v := interpolant yf
  let nx0 := dot00 * (1 - u) + u * dot10
  let nx1 := dot01 * (1 - u) + u * dot11
  nx0 * (1 - v) + v * nx1

/-- One output pixel of perlin.py `generate_perlin_noise_2d`: octave `o` uses
lattice resolution `res·2^o`, amplitude `0.5^o` (persistence is the default
0.5 and the callers never override it), and the sum is divided by the total
amplitude when that is nonzero.  `randFor o` is the lattice sample stream of
octave `o` (`RandomState(seed+o).rand` when seeded, the global numpy stream
otherwise). -/
def perlinPixel (oracle : MathOracle) (randFor : ℕ → ℕ → ℕ → ℚ)
    (resY resX octaves h w i j : ℕ) : ℚ :=
  let total := (List.range octaves).foldl
    (fun acc o =>
      acc + ((1:ℚ)/2)^o *
        singleOctavePixel oracle (randFor o) (resY * 2^o) (resX * 2^o) h w i j)
    0
  let maxAmp := (List.range octaves).foldl (fun acc o => acc + ((1:ℚ)/2)^o) 0
  if maxAmp ≠ 0 then total / maxAmp else total

/-! ## flow_field.py: data model -/

/-- RGB triple (PIL color tuple). -/
abbrev RGB := ℕ × ℕ × ℕ

/-- flow_field.py `Bounds`. -/
structure Bounds where
  x0 : ℚ
  y0 : ℚ
  x1 : ℚ
  y1 : ℚ
deriving DecidableEq

/-- Seeding mode (`params['seeding']`). -/
inductive Seeding where
  | grid
  | random
deriving DecidableEq

/-- `params['palette_axis']`; the source treats every string other than
`'y'`, `'field'`, `'random'` as the default x axis. -/
inductive PaletteAxis where
  | x
  | y
  | field
  | random
deriving DecidableEq

/-- The configuration dictionary, restricted to the keys flow_field.py reads,
with each value already of its intended type (the defensive try/except
conversions in `fill_angles` only matter for malformed dictionaries). -/
structure Params where
  width : ℕ
  height : ℕ
  cell_size : ℚ
  margin_factor : ℚ
  noise_scale : ℚ
  octaves : ℤ
  seed : Option ℤ
  quantize_steps : ℤ
  swirl : ℚ
  seeding : Seeding
  density : ℚ
  max_length : ℚ
  step_size : ℚ
  angle_gain : ℚ
  jitter : ℚ
  color_lut : List RGB
  palette_axis : PaletteAxis
  palette_within_stroke : ℚ
  width_start : ℚ
  width_end : ℚ
  color_start : RGB
  background : RGB

/-- One `draw.line(positions[i:i+2], fill=color, width=int(width))` call. -/
structure DrawOp where
  p1 : ℚ × ℚ
  p2 : ℚ × ℚ
  color : RGB
  lineWidth : ℤ
deriving DecidableEq

/-- The render output: a `width×height` RGB canvas initialised to
`background` into which the listed segments were drawn, in order. -/
structure Raster where
  width : ℕ
  height : ℕ
  background : RGB
  ops : List DrawOp
deriving DecidableEq

/-! ## flow_field.py: build_grid -/

/-- flow_field.py `build_grid` (lines 12–33): margin, grid dimensions
`nx = int((width - 2·margin)/cell)` (`ny` analogous) and the bounds.
`np.zeros((ny, nx))` raises `ValueError` when a dimension is negative, so the
result is an `Except`; otherwise the grid starts as zeros and only its shape
matters here (the content is fully overwritten by `fill_angles`). -/
def buildGrid (p : Params) : Except String (ℕ × ℕ × Bounds) :=
  let margin := (min p.width p.height : ℚ) * p.margin_factor
  let nx := pyInt (((p.width : ℚ) - 2 * margin) / p.cell_size)
  let ny := pyInt (((p.height : ℚ) - 2 * margin) / p.cell_size)
  if nx < 0 ∨ ny < 0 then .error "negative dimensions are not allowed"
  else .ok (ny.toNat, nx.toNat,
    ⟨margin, margin, (p.width : ℚ) - margin, (p.height : ℚ) - margin⟩)

/-! ## flow_field.py: fill_angles

`fill_angles(angles, bounds, params)` writes `angles[:] = noise * 2 * np.pi`
and `angles += theta * params['swirl']` IN PLACE (numpy slice-assignment and
augmented assignment mutate the caller's array), but the quantization step
executes `angles = np.round(...)` and `angles = angles * 2*np.pi / ...`,
which REBIND the local name to fresh arrays.  The function returns the local
binding, so the caller's array ends up holding the noise+swirl values while
the returned array additionally carries the quantization.  We therefore model
both: `anglesInPlace` is the content of the caller's array (`grid[0]`) after
the call, `anglesReturned` is the function's return value. -/

/-- Grid after `angles[:] = noise * 2 * np.pi` with noise from
`generate_perlin_noise_2d((ny, nx), (s, s), octaves, seed)` where
`s = int(max(2, noise_scale))` and octaves is clamped to `[1, 10]`
(fill_angles lines 49–76).  `npRandFor` gives the `RandomState(seed+o)`
lattice streams; `ambient` stands for the unseeded global numpy stream. -/
def anglesNoise (oracle : MathOracle) (npRandFor : ℤ → ℕ → ℕ → ℚ)
    (ambient : ℕ → ℕ → ℕ → ℚ) (p : Params) (ny nx : ℕ) : ℕ → ℕ → ℚ :=
  let s := (pyInt (max 2 p.noise_scale)).toNat
  let octs := (max 1 (min 10 p.octaves)).toNat
  let randFor : ℕ → ℕ → ℕ → ℚ :=
    match p.seed with
    | some k => fun o => npRandFor (k + o)
    | none => ambient
  fun i j => perlinPixel oracle randFor s s octs ny nx i j * 2 * npPi

/-- Grid after the optional in-place swirl addition
`angles += arctan2(y - cy, x - cx) * swirl` (fill_angles lines 79–84).
This is the content of the caller's array when `fill_angles` returns, and
hence the grid `render` hands to `draw_strokes`. -/
def anglesInPlace (oracle : MathOracle) (npRandFor : ℤ → ℕ → ℕ → ℚ)
    (ambient : ℕ → ℕ → ℕ → ℚ) (p : Params) (ny nx : ℕ) : ℕ → ℕ → ℚ :=
  let base := anglesNoise oracle npRandFor ambient p ny nx
  if p.swirl > 0 then
    fun i j =>
      base i j + oracle.atan2 ((i : ℚ) - (ny : ℚ)/2) ((j : ℚ) - (nx : ℚ)/2) * p.swirl
  else base

/-- The value `fill_angles` RETURNS: the in-place content with the optional
quantization `np.round(angles/(2π)·N) · 2π/N` applied on top (fill_angles
lines 86–91).  `render` discards this return value. -/
def anglesReturned (oracle : MathOracle) (npRandFor : ℤ → ℕ → ℕ → ℚ)
    (ambient : ℕ → ℕ → ℕ → ℚ) (p : Params) (ny nx : ℕ) : ℕ → ℕ → ℚ :=
  let a := anglesInPlace oracle npRandFor ambient p ny nx
  if p.quantize_steps > 0 then
    fun i j =>
      (npRound (a i j / (2 * npPi) * (p.quantize_steps : ℚ)) : ℚ)
        * 2 * npPi / (p.quantize_steps : ℚ)
  else a

/-! ## flow_field.py: seed_points -/

/-- numpy `np.arange(start, stop, step)` for positive step: the values
`start + k·step` for `0 ≤ k < ⌈(stop − start)/step⌉`. -/
def arange (start stop step : ℚ) : List ℚ :=
  if 0 < step then
    (List.range (⌈(stop - start) / step⌉).toNat).map fun k => start + k * step
  else []

/-- The `random` branch of `seed_points`: `n` points, each drawn as an x then
a y uniform sample, threading the global RNG state. -/
def randomPointsLoop (impl : RandomImpl) (b : Bounds) :
    ℕ → ℕ → List (ℚ × ℚ) × ℕ
  | 0, g => ([], g)
  | n + 1, g =>
    let xg := impl.uniform b.x0 b.x1 g
    let yg := impl.uniform b.y0 b.y1 xg.2
    let rest := randomPointsLoop impl b n yg.2
    ((xg.1, yg.1) :: rest.1, rest.2)

/-- flow_field.py `seed_points` (lines 93–118).  The source stores a third
`None` component in each tuple that `draw_strokes` immediately discards; we
drop it.  `random`: `int(area·density)` uniform draws;
`grid`: a row-major `np.arange` lattice with spacing `sqrt(area/density)`. -/
def seedPoints (oracle : MathOracle) (impl : RandomImpl) (p : Params)
    (b : Bounds) (g : ℕ) : List (ℚ × ℚ) × ℕ :=
  let area := (b.x1 - b.x0) * (b.y1 - b.y0)
  match p.seeding with
  | .random => randomPointsLoop impl b (pyInt (area * p.density)).toNat g
  | .grid =>
    let spacing := oracle.sqrt (area / p.density)
    (((arange b.y0 b.y1 spacing).flatMap fun y =>
        (arange b.x0 b.x1 spacing).map fun x => (x, y)), g)

/-! ## flow_field.py: draw_strokes -/

/-- The in-bounds test of the tracing loop (line 176):
`bounds.x0 <= x <= bounds.x1 and bounds.y0 <= y <= bounds.y1`. -/
def inBounds (b : Bounds) (x y : ℚ) : Prop :=
  b.x0 ≤ x ∧ x ≤ b.x1 ∧ b.y0 ≤ y ∧ y ≤ b.y1

instance (b : Bounds) (x y : ℚ) : Decidable (inBounds b x y) := by
  unfold inBounds; infer_instance

/-- `get_field_angle` (lines 147–153): truncate the position into cell
coordinates and sample the grid; out-of-range samples return 0. -/
def getFieldAngle (angles : ℕ → ℕ → ℚ) (ny nx : ℕ) (b : Bounds)
    (cell : ℚ) (x y : ℚ) : ℚ :=
  let gx := pyInt ((x - b.x0) / cell)
  let gy := pyInt ((y - b.y0) / cell)
  if 0 ≤ gy ∧ gy < (ny : ℤ) ∧ 0 ≤ gx ∧ gx < (nx : ℤ) then
    angles gy.toNat gx.toNat
  else 0

/-- The stroke-tracing loop (lines 161–179), recursing on the remaining step
budget: blend the heading with the sampled field angle, add uniform jitter,
advance by `step_size` along `(cos, sin)` and either append the new position
(still in bounds) or stop without appending. -/
def traceLoop (oracle : MathOracle) (impl : RandomImpl)
    (angles : ℕ → ℕ → ℚ) (ny nx : ℕ) (b : Bounds) (p : Params) :
    ℕ → ℚ → ℚ → ℚ → ℕ → List (ℚ × ℚ) → List (ℚ × ℚ) × ℕ
  | 0, _, _, _, g, acc => (acc, g)
  | fuel + 1, x, y, hd, g, acc =>
    let fa := getFieldAngle angles ny nx b p.cell_size x y
    let hd1 := hd * (1 - p.angle_gain) + fa * p.angle_gain
    let jg := impl.uniform (-p.jitter) p.jitter g
    let hd2 := hd1 + jg.1
    let x1 := x + oracle.cos hd2 * p.step_size
    let y1 := y + oracle.sin hd2 * p.step_size
    if inBounds b x1 y1 then
      traceLoop oracle impl angles ny nx b p fuel x1 y1 hd2 jg.2 (acc ++ [(x1, y1)])
    else (acc, jg.2)

/-- One traced stroke (lines 155–179): positions start at the seed, the
initial heading is the field angle at the seed, and the loop runs for at most
`int(max_length)` steps. -/
def traceStroke (oracle : MathOracle) (impl : RandomImpl)
    (angles : ℕ → ℕ → ℚ) (ny nx : ℕ) (b : Bounds) (p : Params)
    (x0 y0 : ℚ) (g : ℕ) : List (ℚ × ℚ) × ℕ :=
  let hd := getFieldAngle angles ny nx b p.cell_size x0 y0
  traceLoop oracle impl angles ny nx b p (pyInt p.max_length).toNat x0 y0 hd g [(x0, y0)]

/-- Per-stroke span and base index (lines 199–210): for `L ≤ 1` both are 0;
otherwise `span = max(0, int((L−1)·within_stroke))`,
`base_idx = int(base · max(0, L−1−span))`. -/
def strokeSpanBase (L : ℕ) (ws base : ℚ) : ℤ × ℤ :=
  if L ≤ 1 then (0, 0)
  else
    let span := max 0 (pyInt (((L : ℚ) - 1) * ws))
    let maxBase := max 0 ((L : ℤ) - 1 - span)
    (pyInt (base * (maxBase : ℚ)), span)

/-- Per-segment LUT index (lines 216–218):
`idx = base_idx + int(t·span)`, set to `L−1` when `idx ≥ L`. -/
def segIdx (L : ℕ) (baseIdx span : ℤ) (t : ℚ) : ℤ :=
  let idx := baseIdx + pyInt (t * (span : ℚ))
  if (L : ℤ) ≤ idx then (L : ℤ) - 1 else idx

/-- The base colour metric of a stroke (lines 185–195), selected by
`palette_axis`; the `random` axis consumes one draw from the global RNG. -/
def baseMetric (_oracle : MathOracle) (impl : RandomImpl)
    (angles : ℕ → ℕ → ℚ) (ny nx : ℕ) (b : Bounds) (p : Params)
    (x0 y0 : ℚ) (g : ℕ) : ℚ × ℕ :=
  match p.palette_axis with
  | .y => ((y0 - b.y0) / max 1 (b.y1 - b.y0), g)
  | .field =>
    let a := getFieldAngle angles ny nx b p.cell_size x0 y0
    let m := a - 2 * npPi * ⌊a / (2 * npPi)⌋
    (m / (2 * npPi), g)
  | .random => impl.randomFn g
  | .x => ((x0 - b.x0) / max 1 (b.x1 - b.x0), g)

/-- The drawing loop over segments (lines 213–225): segment `i` joins
positions `i` and `i+1`, has progress `t = i/(len−1)`, colour
`lut[idx]` (or `color_start` when the LUT is empty) and interpolated width. -/
def strokeOps (p : Params) (positions : List (ℚ × ℚ)) (base : ℚ) : List DrawOp :=
  let lut := p.color_lut
  let L := lut.length
  let sb := strokeSpanBase L p.palette_within_stroke base
  let n := positions.length
  (List.range (n - 1)).map fun (i : ℕ) =>
    let t : ℚ := (i : ℚ) / ((n : ℚ) - 1)
    let color :=
      if 0 < L then lut.getD (segIdx L sb.1 sb.2 t).toNat (0, 0, 0)
      else p.color_start
    let wd := p.width_start + (p.width_end - p.width_start) * t
    ⟨positions.getD i (0, 0), positions.getD (i + 1) (0, 0), color, pyInt wd⟩

/-- Processing of one seed point inside `draw_strokes` (lines 155–225):
trace the stroke; if it has at least two positions, compute the clamped base
metric and append the stroke's draw calls. -/
def processPoint (oracle : MathOracle) (impl : RandomImpl)
    (angles : ℕ → ℕ → ℚ) (ny nx : ℕ) (b : Bounds) (p : Params)
    (st : List DrawOp × ℕ) (pt : ℚ × ℚ) : List DrawOp × ℕ :=
  let tr := traceStroke oracle impl angles ny nx b p pt.1 pt.2 st.2
  if 1 < tr.1.length then
    let bm := baseMetric oracle impl angles ny nx b p pt.1 pt.2 tr.2
    let base := max 0 (min 1 bm.1)
    (st.1 ++ strokeOps p tr.1 base, bm.2)
  else (st.1, tr.2)

/-- flow_field.py `draw_strokes` (lines 120–227) as the list of emitted
segments: seed points first, then each point processed in order against the
shared canvas and the threaded global RNG state. -/
def drawStrokes (oracle : MathOracle) (impl : RandomImpl)
    (angles : ℕ → ℕ → ℚ) (ny nx : ℕ) (b : Bounds) (p : Params)
    (g : ℕ) : List DrawOp × ℕ :=
  let sp := seedPoints oracle impl p b g
  sp.1.foldl (processPoint oracle impl angles ny nx b p) ([], sp.2)

/-! ## flow_field.py: render -/

/-- flow_field.py `render` (lines 229–242): re-seed the process-wide RNG when
a seed is configured, build the grid, run `fill_angles` (whose return value
the source DISCARDS: `draw_strokes` receives `grid[0]`, i.e. the in-place
content `anglesInPlace`, never `anglesReturned`), then draw.  The result
pairs the raster with the final global RNG state. -/
def render (oracle : MathOracle) (impl : RandomImpl)
    (npRandFor : ℤ → ℕ → ℕ → ℚ) (ambient : ℕ → ℕ → ℕ → ℚ)
    (p : Params) (g0 : ℕ) : Except String (Raster × ℕ) :=
  let g1 := match p.seed with
    | some k => impl.seedFn k
    | none => g0
  match buildGrid p with
  | .error e => .error e
  | .ok (ny, nx, b) =>
    let angles := anglesInPlace oracle npRandFor ambient p ny nx
    let dr := drawStrokes oracle impl angles ny nx b p g1
    .ok (⟨p.width, p.height, p.background, dr.1⟩, dr.2)

/-- Discriminator for `Except` results. -/
def isOkE {ε α : Type} : Except ε α → Bool
  | .ok _ => true
  | .error _ => false

/-! ## Spec-side definitions

`specSegIdxC7` transcribes the colorizer contract in the words of the
specification (round-based); it is compared against the source-derived
`strokeSpanBase`/`segIdx` chain. -/

/-- The per-segment colour index as the specification words it:
span = `round((L−1)·palette_within_stroke)` clamped to `[0, L−1]`;
base index = `round(base·(L−1−span))`;
index = `clamp(base_index + round(t·span), 0, L−1)`. -/
def specSegIdxC7 (L : ℕ) (ws base t : ℚ) : ℤ :=
  let span := min (max 0 (round (((L : ℚ) - 1) * ws))) ((L : ℤ) - 1)
  let baseIdx := round (base * (((L : ℤ) - 1 - span : ℤ) : ℚ))
  min (max 0 (baseIdx + round (t * (span : ℚ)))) ((L : ℤ) - 1)

/-- The colorizer contract amended to what the source computes: truncation
instead of rounding, the span clamped below only, and the final index capped
at `L−1`.  This follows the amended wording; the theorem shows it equals the
source-derived `strokeSpanBase`/`segIdx` chain. -/
def specSegIdxAmended (L : ℕ) (ws base t : ℚ) : ℤ :=
  let span := max 0 (pyInt (((L : ℚ) - 1) * ws))
  let baseIdx := pyInt (base * ((max 0 ((L : ℤ) - 1 - span) : ℤ) : ℚ))
  min (baseIdx + pyInt (t * (span : ℚ))) ((L : ℤ) - 1)

/-! ## Concrete instantiations used by witnesses and counterexamples -/

/-- A concrete admissible math oracle (constant cosine 1, sine 0). -/
def cOracle : MathOracle := ⟨fun _ => 1, fun _ => 0, fun _ _ => 0, fun _ => 0⟩

/-- A concrete RNG implementation: seeding maps seed `k` to state
`k.toNat + 1000`; `uniform` returns the midpoint of its range and bumps the
state; `random()` returns 1/2. -/
def cImpl : RandomImpl :=
  ⟨fun k => k.toNat + 1000, fun a b s => ((a + b) / 2, s + 1), fun s => (1/2, s + 1)⟩

/-- Concrete seeded numpy lattice streams: every lattice sample 0. -/
def cNpRand : ℤ → ℕ → ℕ → ℚ := fun _ _ _ => 0

/-- Concrete unseeded numpy stream: every lattice sample 0. -/
def cAmbient : ℕ → ℕ → ℕ → ℚ := fun _ _ _ => 0

/-- Concrete configuration: 80×80 canvas, cell 10, no margin (an 8×8 angle
grid), seed 1, `quantize_steps = 4`, no swirl, no strokes (density 0). -/
def cParamsQ : Params :=
  { width := 80, height := 80, cell_size := 10, margin_factor := 0,
    noise_scale := 2, octaves := 1, seed := some 1, quantize_steps := 4,
    swirl := 0, seeding := .random, density := 0, max_length := 0,
    step_size := 0, angle_gain := 1/2, jitter := 0,
    color_lut := [(0, 0, 0)], palette_axis := .x,
    palette_within_stroke := 0, width_start := 1, width_end := 1,
    color_start := (0, 0, 0), background := (240, 240, 240) }

/-- Variant of `cParamsQ` with `step_size = 0` but `max_length = 3`, one
random seed point (density 1/6400 over area 6400) and a 3-colour LUT. -/
def cParamsS : Params :=
  { cParamsQ with
    quantize_steps := 0
    seed := some 5
    density := 1/6400
    max_length := 3
    color_lut := [(10, 10, 10), (20, 20, 20), (30, 30, 30)]
    width_start := 2
    width_end := 2
    color_start := (1, 2, 3) }

/-- Variant with density 27/1000 (so `area·density = 2.7` on 10×10 bounds). -/
def cParamsR : Params := { cParamsQ with density := 27/1000 }

/-- Hand-picked bounds with area 100. -/
def cBounds8 : Bounds := ⟨0, 0, 10, 10⟩

/-- Variant with an 11-colour LUT and `palette_within_stroke = 0.27`. -/
def cParamsL : Params :=
  { cParamsQ with
    color_lut := [(0, 0, 0), (1, 1, 1), (2, 2, 2), (3, 3, 3), (4, 4, 4),
      (5, 5, 5), (6, 6, 6), (7, 7, 7), (8, 8, 8), (9, 9, 9), (10, 10, 10)]
    palette_within_stroke := 27/100 }

/-- The specification's bounds-violation example: 100×100 canvas,
`margin_factor = 0.6` (margin 60), cell 20. -/
def cParamsM6 : Params :=
  { cParamsQ with
    width := 100
    height := 100
    cell_size := 20
    margin_factor := 3/5 }

/-- Same canvas with the margin at exactly half the smaller dimension. -/
def cParamsM5 : Params := { cParamsM6 with margin_factor := 1/2 }

/-! ## Helper lemmas -/

theorem pyInt_zero : pyInt 0 = 0 := by simp [pyInt]

theorem pyInt_nonneg {q : ℚ} (hq : 0 ≤ q) : 0 ≤ pyInt q := by
  rw [pyInt, if_pos hq]
  exact Int.floor_nonneg.mpr hq

theorem pyInt_le_int {q : ℚ} {m : ℤ} (hq : 0 ≤ q) (h : q ≤ (m : ℚ)) : pyInt q ≤ m := by
  rw [pyInt, if_pos hq]
  refine Int.floor_le_iff.mpr ?_
  linarith

theorem pyInt_eq_nonneg {q : ℚ} {m : ℤ} (h0 : (0:ℚ) ≤ q) (h1 : (m : ℚ) ≤ q)
    (h2 : q < (m : ℚ) + 1) : pyInt q = m := by
  rw [pyInt, if_pos h0]
  exact Int.floor_eq_iff.mpr ⟨h1, by linarith⟩

theorem pyInt_neg_one : pyInt (-1 : ℚ) = -1 := by
  rw [pyInt, if_neg (by norm_num)]
  rw [Int.ceil_eq_iff]
  constructor <;> norm_num

theorem buildGrid_cParamsQ : buildGrid cParamsQ = .ok (8, 8, ⟨0, 0, 80, 80⟩) := by
  simp only [buildGrid, cParamsQ]
  have h8 : pyInt (8 : ℚ) = 8 :=
    pyInt_eq_nonneg (by norm_num) (by norm_num) (by norm_num)
  norm_num [h8]
  decide

/-! ## Claim theorems -/

/-- C7 (corrected), counterexample: with an 11-colour LUT,
`palette_within_stroke = 0.27`, base metric 0 and segment progress `t = 1/3`,
the source computes LUT index 0 (it truncates: `int(2.7) = 2`,
`int(2/3) = 0`) while the claim's round-based formula gives index 1
(`round(2.7) = 3`, `round(1) = 1`), so on the 11-colour LUT of `cParamsL`
the drawn colour `lut[0] = (0,0,0)` differs from the claim's
`lut[1] = (1,1,1)`. -/
theorem colorizer_round_counterexample :
    specSegIdxC7 11 (27/100) 0 (1/3) = 1 ∧
    segIdx 11 (strokeSpanBase 11 (27/100) 0).1 (strokeSpanBase 11 (27/100) 0).2 (1/3) = 0 ∧
    cParamsL.color_lut.getD
        (segIdx 11 (strokeSpanBase 11 (27/100) 0).1
          (strokeSpanBase 11 (27/100) 0).2 (1/3)).toNat (0, 0, 0) = (0, 0, 0) ∧
    cParamsL.color_lut.getD (specSegIdxC7 11 (27/100) 0 (1/3)).toNat (0, 0, 0)
      = (1, 1, 1) := by
  have h1 : specSegIdxC7 11 (27/100) 0 (1/3) = 1 := by
    norm_num [specSegIdxC7, round_eq]
  have h2 : segIdx 11 (strokeSpanBase 11 (27/100) 0).1
      (strokeSpanBase 11 (27/100) 0).2 (1/3) = 0 := by
    norm_num [segIdx, strokeSpanBase, pyInt]
  refine ⟨h1, h2, ?_, ?_⟩
  · rw [h2]
    norm_num [cParamsL, cParamsQ]
  · rw [h1]
    norm_num [cParamsL, cParamsQ]

/-- C7 (amended): for every nonempty LUT the colorizer computes
span = `trunc((L−1)·palette_within_stroke)` clamped below to 0,
base index = `trunc(base·max(0, L−1−span))`, and per-segment index
`min(base_index + trunc(t·span), L−1)`; the per-segment colour is
`color_lut` at that index. -/
theorem colorizer_truncation_amended (L : ℕ) (ws base t : ℚ) (hL : 0 < L) :
    segIdx L (strokeSpanBase L ws base).1 (strokeSpanBase L ws base).2 t
      = specSegIdxAmended L ws base t := by
  by_cases hsmall : L ≤ 1
  · have h1 : L = 1 := le_antisymm hsmall hL
    subst h1
    norm_num [strokeSpanBase, segIdx, specSegIdxAmended, pyInt_zero]
  · simp only [strokeSpanBase, if_neg hsmall, segIdx, specSegIdxAmended]
    split
    · next hge => exact (min_eq_right (by omega)).symm
    · next hlt => exact (min_eq_left (by omega)).symm

/-- Witness for `colorizer_truncation_amended` at `L = 11`,
`palette_within_stroke = 0.27`, base 0, `t = 1/3`. -/
theorem colorizer_truncation_amended_witness :
    segIdx 11 (strokeSpanBase 11 (27/100) 0).1 (strokeSpanBase 11 (27/100) 0).2 (1/3)
      = specSegIdxAmended 11 (27/100) 0 (1/3) :=
  colorizer_truncation_amended 11 (27/100) 0 (1/3) (by norm_num)

theorem randomPointsLoop_length (impl : RandomImpl) (b : Bounds) :
    ∀ (n g : ℕ), ((randomPointsLoop impl b n g).1).length = n := by
  intro n
  induction n with
  | zero => intro g; rfl
  | succ m ih => intro g; simp [randomPointsLoop, ih]

/-- C8 (corrected), counterexample: on 10×10 bounds (area 100) with density
0.027, `area·density = 2.7`; the source generates `int(2.7) = 2` points, not
`round(2.7) = 3` as the claim states. -/
theorem seed_count_round_counterexample :
    ¬ (((seedPoints cOracle cImpl cParamsR cBounds8 0).1).length
        = (round ((cBounds8.x1 - cBounds8.x0) * (cBounds8.y1 - cBounds8.y0)
            * cParamsR.density)).toNat) := by
  have hlen : ((seedPoints cOracle cImpl cParamsR cBounds8 0).1).length = 2 := by
    have hmode : cParamsR.seeding = Seeding.random := rfl
    simp only [seedPoints, hmode]
    rw [randomPointsLoop_length]
    have harea : (cBounds8.x1 - cBounds8.x0) * (cBounds8.y1 - cBounds8.y0)
        * cParamsR.density = 27/10 := by
      norm_num [cBounds8, cParamsR, cParamsQ]
    rw [harea]
    rw [pyInt_eq_nonneg (m := 2) (by norm_num) (by norm_num) (by norm_num)]
    rfl
  have hround : (round ((cBounds8.x1 - cBounds8.x0) * (cBounds8.y1 - cBounds8.y0)
      * cParamsR.density)).toNat = 3 := by
    norm_num [cBounds8, cParamsR, cParamsQ, round_eq]
    decide
  rw [hlen, hround]
  norm_num

/-- C8 (amended): in random seeding mode the number of generated start
points equals `trunc(area·density)` (truncation toward zero, clamped to 0
for a negative product), where area is the bounds-rectangle area. -/
theorem seed_count_truncation_amended (oracle : MathOracle) (impl : RandomImpl)
    (p : Params) (b : Bounds) (g : ℕ) (hmode : p.seeding = .random) :
    ((seedPoints oracle impl p b g).1).length
      = (pyInt ((b.x1 - b.x0) * (b.y1 - b.y0) * p.density)).toNat := by
  unfold seedPoints
  rw [hmode]
  exact randomPointsLoop_length impl b _ g

/-- Witness for `seed_count_truncation_amended` on the concrete 10×10
bounds with density 0.027. -/
theorem seed_count_truncation_amended_witness :
    ((seedPoints cOracle cImpl cParamsR cBounds8 0).1).length
      = (pyInt ((cBounds8.x1 - cBounds8.x0) * (cBounds8.y1 - cBounds8.y0)
          * cParamsR.density)).toNat :=
  seed_count_truncation_amended cOracle cImpl cParamsR cBounds8 0 rfl

/-- C9 (corrected), counterexample: with `margin_factor = 0.5` on a 100×100
canvas the margin consumes exactly half of the smaller dimension, yet the
render does NOT abort: it succeeds (with an empty 0×0 angle grid and a
background-only raster), refuting the claim's "at least half" trigger. -/
theorem half_margin_renders_counterexample :
    ((min cParamsM5.width cParamsM5.height : ℚ) * cParamsM5.margin_factor)
        ≥ (min cParamsM5.width cParamsM5.height : ℚ) / 2 ∧
    isOkE (render cOracle cImpl cNpRand cAmbient cParamsM5 0) = true := by
  constructor
  · norm_num [cParamsM5, cParamsM6, cParamsQ]
  · have hbg : buildGrid cParamsM5 = .ok (0, 0, ⟨50, 50, 50, 50⟩) := by
      simp only [buildGrid, cParamsM5, cParamsM6, cParamsQ]
      norm_num [pyInt_zero]
    unfold render
    rw [hbg]
    rfl

/-- C9 (amended): on the specification's example (100×100 canvas,
`margin_factor = 0.6`, cell 20) the computed grid dimension
`int((100−120)/20) = −1` is negative, so the render aborts during grid
allocation — numpy's `ValueError` for negative dimensions, the code defining
no `BoundsError` — before any drawing, for every RNG state and oracle. -/
theorem negative_grid_aborts_amended (oracle : MathOracle) (impl : RandomImpl)
    (npRandFor : ℤ → ℕ → ℕ → ℚ) (ambient : ℕ → ℕ → ℕ → ℚ) (g : ℕ) :
    render oracle impl npRandFor ambient cParamsM6 g
      = .error "negative dimensions are not allowed" := by
  have h : buildGrid cParamsM6 = .error "negative dimensions are not allowed" := by
    simp only [buildGrid, cParamsM6, cParamsQ]
    norm_num [pyInt_neg_one]
  unfold render
  rw [h]

theorem forall_mem_append_point {b : Bounds} {l : List (ℚ × ℚ)} {x y : ℚ}
    (hl : ∀ q ∈ l, inBounds b q.1 q.2) (ha : inBounds b x y) :
    ∀ q ∈ l ++ [(x, y)], inBounds b q.1 q.2 := by
  intro q hq
  rcases List.mem_append.mp hq with h | h
  · exact hl q h
  · rw [List.mem_singleton.mp h]
    exact ha

theorem traceLoop_bounds (oracle : MathOracle) (impl : RandomImpl)
    (angles : ℕ → ℕ → ℚ) (ny nx : ℕ) (b : Bounds) (p : Params) :
    ∀ (fuel : ℕ) (x y hd : ℚ) (g : ℕ) (acc : List (ℚ × ℚ)),
      (∀ q ∈ acc, inBounds b q.1 q.2) →
      (∀ q ∈ (traceLoop oracle impl angles ny nx b p fuel x y hd g acc).1,
          inBounds b q.1 q.2) ∧
      (traceLoop oracle impl angles ny nx b p fuel x y hd g acc).1.length
        ≤ acc.length + fuel := by
  intro fuel
  induction fuel with
  | zero =>
    intro x y hd g acc hacc
    simp only [traceLoop]
    exact ⟨hacc, by omega⟩
  | succ n ih =>
    intro x y hd g acc hacc
    simp only [traceLoop]
    split <;> rename_i h <;>
      first
      | exact ⟨hacc, by show acc.length ≤ acc.length + (n + 1); omega⟩
      | (refine ⟨(ih _ _ _ _ _ (forall_mem_append_point hacc h)).1,
            le_trans (ih _ _ _ _ _ (forall_mem_append_point hacc h)).2 ?_⟩
         simp only [List.length_append, List.length_singleton]
         omega)

/-- C5 (confirmed): a stroke traced from an in-bounds seed point records
only in-bounds positions (a candidate that leaves the bounds is never
appended, the trace stops there) and has at most `int(max_length) + 1`
positions. -/
theorem trace_positions_in_bounds_and_bounded (oracle : MathOracle)
    (impl : RandomImpl) (angles : ℕ → ℕ → ℚ) (ny nx : ℕ) (b : Bounds)
    (p : Params) (x0 y0 : ℚ) (g : ℕ) (hseed : inBounds b x0 y0) :
    (∀ q ∈ (traceStroke oracle impl angles ny nx b p x0 y0 g).1,
        inBounds b q.1 q.2) ∧
    (traceStroke oracle impl angles ny nx b p x0 y0 g).1.length
      ≤ (pyInt p.max_length).toNat + 1 := by
  unfold traceStroke
  have h := traceLoop_bounds oracle impl angles ny nx b p
    (pyInt p.max_length).toNat x0 y0
    (getFieldAngle angles ny nx b p.cell_size x0 y0) g [(x0, y0)]
    (fun q hq => by rw [List.mem_singleton.mp hq]; exact hseed)
  refine ⟨h.1, le_trans h.2 ?_⟩
  simp only [List.length_singleton]
  omega

/-- Witness for `trace_positions_in_bounds_and_bounded` at a concrete
configuration and seed point. -/
theorem trace_positions_in_bounds_and_bounded_witness :
    (∀ q ∈ (traceStroke cOracle cImpl (fun _ _ => 0) 8 8 ⟨0, 0, 80, 80⟩
        cParamsQ 40 40 0).1, inBounds ⟨0, 0, 80, 80⟩ q.1 q.2) ∧
    (traceStroke cOracle cImpl (fun _ _ => 0) 8 8 ⟨0, 0, 80, 80⟩
        cParamsQ 40 40 0).1.length ≤ (pyInt cParamsQ.max_length).toNat + 1 :=
  trace_positions_in_bounds_and_bounded cOracle cImpl (fun _ _ => 0) 8 8
    ⟨0, 0, 80, 80⟩ cParamsQ 40 40 0 (by norm_num [inBounds])

theorem traceLoop_replicate (oracle : MathOracle) (impl : RandomImpl)
    (angles : ℕ → ℕ → ℚ) (ny nx : ℕ) (b : Bounds) (p : Params)
    (hstep : p.step_size = 0) :
    ∀ (fuel : ℕ) (x y hd : ℚ) (g : ℕ) (acc : List (ℚ × ℚ)),
      inBounds b x y →
      (traceLoop oracle impl angles ny nx b p fuel x y hd g acc).1
        = acc ++ List.replicate fuel (x, y) := by
  intro fuel
  induction fuel with
  | zero =>
    intro x y hd g acc hxy
    simp [traceLoop]
  | succ n ih =>
    intro x y hd g acc hxy
    simp only [traceLoop, hstep, mul_zero, add_zero]
    rw [if_pos hxy]
    rw [ih x y _ _ _ hxy]
    simp [List.replicate_succ]

/-- C6 (corrected), counterexample: `cParamsS` has `step_size = 0` and
`max_length = 3`; its sole random seed point is `(40, 40)`, and the stroke
traced from it has 4 positions, not 1 as the claim states (and, having more
than one position, it IS drawn). -/
theorem step_zero_stroke_counterexample :
    cParamsS.step_size = 0 ∧
    (seedPoints cOracle cImpl cParamsS ⟨0, 0, 80, 80⟩ 1005).1 = [(40, 40)] ∧
    (traceStroke cOracle cImpl
        (anglesInPlace cOracle cNpRand cAmbient cParamsS 8 8) 8 8
        ⟨0, 0, 80, 80⟩ cParamsS 40 40 1007).1.length = 4 := by
  refine ⟨rfl, ?_, ?_⟩
  · have hmode : cParamsS.seeding = Seeding.random := rfl
    simp only [seedPoints, hmode]
    have harea : (((⟨0, 0, 80, 80⟩ : Bounds).x1 - (⟨0, 0, 80, 80⟩ : Bounds).x0)
        * ((⟨0, 0, 80, 80⟩ : Bounds).y1 - (⟨0, 0, 80, 80⟩ : Bounds).y0)
        * cParamsS.density) = 1 := by
      norm_num [cParamsS, cParamsQ]
    rw [harea]
    have h1 : pyInt (1 : ℚ) = 1 :=
      pyInt_eq_nonneg (by norm_num) (by norm_num) (by norm_num)
    rw [h1]
    show (randomPointsLoop cImpl ⟨0, 0, 80, 80⟩ 1 1005).1 = [(40, 40)]
    simp only [randomPointsLoop, cImpl]
    norm_num
  · unfold traceStroke
    rw [traceLoop_replicate cOracle cImpl _ 8 8 _ cParamsS rfl _ _ _ _ _ _
      (by norm_num [inBounds])]
    have h3 : pyInt cParamsS.max_length = 3 := by
      have : cParamsS.max_length = 3 := rfl
      rw [this]
      exact pyInt_eq_nonneg (by norm_num) (by norm_num) (by norm_num)
    rw [h3]
    simp

/-- C6 (amended): `max_length = 0` alone gives a 1-position stroke that is
not drawn (it contributes no segments); but `step_size = 0` with an
in-bounds seed does not terminate the stroke early: the position never
moves, stays in bounds, and the trace is `int(max_length) + 1` copies of the
seed (so for `max_length ≥ 1` the stroke has more than one position and IS
drawn, as degenerate zero-length segments). -/
theorem stroke_termination_amended :
    (∀ (oracle : MathOracle) (impl : RandomImpl) (angles : ℕ → ℕ → ℚ)
        (ny nx : ℕ) (b : Bounds) (p : Params) (ops : List DrawOp) (g : ℕ)
        (x y : ℚ), pyInt p.max_length = 0 →
        (traceStroke oracle impl angles ny nx b p x y g).1 = [(x, y)] ∧
        (processPoint oracle impl angles ny nx b p (ops, g) (x, y)).1 = ops) ∧
    (∀ (oracle : MathOracle) (impl : RandomImpl) (angles : ℕ → ℕ → ℚ)
        (ny nx : ℕ) (b : Bounds) (p : Params) (g : ℕ) (x y : ℚ),
        p.step_size = 0 → inBounds b x y →
        (traceStroke oracle impl angles ny nx b p x y g).1
          = List.replicate ((pyInt p.max_length).toNat + 1) (x, y)) := by
  constructor
  · intro oracle impl angles ny nx b p ops g x y hml
    have htr : (traceStroke oracle impl angles ny nx b p x y g).1 = [(x, y)] := by
      unfold traceStroke
      rw [hml]
      rfl
    refine ⟨htr, ?_⟩
    simp only [processPoint, htr, List.length_singleton]
    norm_num
  · intro oracle impl angles ny nx b p g x y hstep hxy
    unfold traceStroke
    rw [traceLoop_replicate oracle impl angles ny nx b p hstep _ _ _ _ _ _ hxy]
    simp [List.replicate_succ]

/-- Witness for `stroke_termination_amended`: the `max_length = 0` part at
`cParamsQ` and the `step_size = 0` part at `cParamsS`. -/
theorem stroke_termination_amended_witness :
    (traceStroke cOracle cImpl (fun _ _ => 0) 8 8 ⟨0, 0, 80, 80⟩
        cParamsQ 40 40 0).1 = [(40, 40)] ∧
    (traceStroke cOracle cImpl (fun _ _ => 0) 8 8 ⟨0, 0, 80, 80⟩
        cParamsS 7 9 0).1
      = List.replicate ((pyInt cParamsS.max_length).toNat + 1) (7, 9) := by
  constructor
  · exact (stroke_termination_amended.1 cOracle cImpl (fun _ _ => 0) 8 8
      ⟨0, 0, 80, 80⟩ cParamsQ [] 0 40 40 (by rw [show cParamsQ.max_length = 0 from rfl, pyInt_zero])).1
  · exact stroke_termination_amended.2 cOracle cImpl (fun _ _ => 0) 8 8
      ⟨0, 0, 80, 80⟩ cParamsS 0 7 9 rfl (by norm_num [inBounds])

/-- C2 (confirmed): with a configured seed, the raster returned by `render`
does not depend on the incoming global RNG state: two sequential calls with
the same configuration produce identical rasters (the PIL rasterisation of
identical draw-call sequences being deterministic). -/
theorem render_deterministic_with_seed (oracle : MathOracle)
    (impl : RandomImpl) (npRandFor : ℤ → ℕ → ℕ → ℚ)
    (ambient : ℕ → ℕ → ℕ → ℚ) (p : Params) (k : ℤ) (g1 g2 : ℕ)
    (hs : p.seed = some k) :
    (render oracle impl npRandFor ambient p g1).map Prod.fst
      = (render oracle impl npRandFor ambient p g2).map Prod.fst := by
  unfold render
  simp only [hs]

/-- Witness for `render_deterministic_with_seed`: the seeded `cParamsQ`
rendered from two different global RNG states. -/
theorem render_deterministic_with_seed_witness :
    (render cOracle cImpl cNpRand cAmbient cParamsQ 0).map Prod.fst
      = (render cOracle cImpl cNpRand cAmbient cParamsQ 7).map Prod.fst :=
  render_deterministic_with_seed cOracle cImpl cNpRand cAmbient cParamsQ 1 0 7 rfl

/-- C4 (corrected), counterexample: `render` DOES mutate the process-wide
RNG.  Rendering the seeded `cParamsQ` from global state 0 leaves the global
generator in state 1001 (`random.seed(1)` replaced the state), not 0: the
call is not free of global RNG effects. -/
theorem render_mutates_global_rng_counterexample :
    (render cOracle cImpl cNpRand cAmbient cParamsQ 0).map Prod.snd
      = Except.ok 1001 ∧ (1001 : ℕ) ≠ 0 := by
  constructor
  · have hbg := buildGrid_cParamsQ
    have hsp : ∀ g : ℕ, seedPoints cOracle cImpl cParamsQ ⟨0, 0, 80, 80⟩ g
        = ([], g) := by
      intro g
      have hmode : cParamsQ.seeding = Seeding.random := rfl
      simp only [seedPoints, hmode]
      have hz : (((80:ℚ) - 0) * (80 - 0) * cParamsQ.density) = 0 := by
        norm_num [cParamsQ]
      rw [hz, pyInt_zero]
      rfl
    unfold render
    rw [hbg]
    have hseed : cParamsQ.seed = some 1 := rfl
    simp only [hseed, drawStrokes, hsp, List.foldl_nil]
    norm_num [cImpl]
    rfl
  · norm_num

/-- C4 (amended): `render` uses (and clobbers) the process-wide generator;
when a seed is configured it re-seeds that global generator, so the global
RNG state left behind — like the raster — is a function of the
configuration alone, independent of the state the caller had. -/
theorem render_reseeds_global_rng_amended (oracle : MathOracle)
    (impl : RandomImpl) (npRandFor : ℤ → ℕ → ℕ → ℚ)
    (ambient : ℕ → ℕ → ℕ → ℚ) (p : Params) (k : ℤ) (g1 g2 : ℕ)
    (hs : p.seed = some k) :
    (render oracle impl npRandFor ambient p g1).map Prod.snd
      = (render oracle impl npRandFor ambient p g2).map Prod.snd := by
  unfold render
  simp only [hs]

/-- Witness for `render_reseeds_global_rng_amended`. -/
theorem render_reseeds_global_rng_amended_witness :
    (render cOracle cImpl cNpRand cAmbient cParamsQ 0).map Prod.snd
      = (render cOracle cImpl cNpRand cAmbient cParamsQ 5).map Prod.snd :=
  render_reseeds_global_rng_amended cOracle cImpl cNpRand cAmbient cParamsQ 1 0 5 rfl

theorem interpolant_nonneg {t : ℚ} (ht : 0 ≤ t) : 0 ≤ interpolant t := by
  have h3 : 0 ≤ t^3 := by positivity
  have h1 : 0 ≤ t^3 * (t - 5/4)^2 := by positivity
  unfold interpolant
  nlinarith [h3, h1]

theorem interpolant_le_one {t : ℚ} (ht1 : t ≤ 1) : interpolant t ≤ 1 := by
  have h1 : 0 ≤ (1-t)^3 := pow_nonneg (by linarith) 3
  have h2 : 0 ≤ (1-t)^3 * (t + 1/4)^2 := mul_nonneg h1 (sq_nonneg _)
  unfold interpolant
  nlinarith [h1, h2]

theorem interpolant_key {t : ℚ} (ht : 0 ≤ t) (ht1 : t ≤ 1) :
    t + interpolant t * (1 - 2*t) ≤ 1/2 := by
  have h1 : 0 ≤ (t * (1-t) * (1-2*t))^2 := sq_nonneg _
  have h2 : 0 ≤ t * (1-t) * (1-2*t)^2 :=
    mul_nonneg (mul_nonneg ht (by linarith)) (sq_nonneg _)
  have h3 : 0 ≤ (1-2*t)^2 := sq_nonneg _
  unfold interpolant
  nlinarith [h1, h2, h3]

theorem dot_bound {c s a b : ℚ} (hc1 : -1 ≤ c) (hc2 : c ≤ 1) (hs1 : -1 ≤ s)
    (hs2 : s ≤ 1) (ha : 0 ≤ a) (hb : 0 ≤ b) :
    -(a + b) ≤ c * a + s * b ∧ c * a + s * b ≤ a + b := by
  constructor
  · nlinarith [mul_nonneg (by linarith : (0:ℚ) ≤ c + 1) ha,
      mul_nonneg (by linarith : (0:ℚ) ≤ s + 1) hb]
  · nlinarith [mul_nonneg (by linarith : (0:ℚ) ≤ 1 - c) ha,
      mul_nonneg (by linarith : (0:ℚ) ≤ 1 - s) hb]

theorem lerp_bound {u a b A B : ℚ} (hu : 0 ≤ u) (hu1 : u ≤ 1)
    (ha1 : -A ≤ a) (ha2 : a ≤ A) (hb1 : -B ≤ b) (hb2 : b ≤ B) :
    -((1-u)*A + u*B) ≤ a*(1-u) + u*b ∧ a*(1-u) + u*b ≤ (1-u)*A + u*B := by
  constructor
  · nlinarith [mul_le_mul_of_nonneg_right ha1 (by linarith : (0:ℚ) ≤ 1-u),
      mul_le_mul_of_nonneg_left hb1 hu]
  · nlinarith [mul_le_mul_of_nonneg_right ha2 (by linarith : (0:ℚ) ≤ 1-u),
      mul_le_mul_of_nonneg_left hb2 hu]

theorem blend_bound
    (c00 s00 c10 s10 c01 s01 c11 s11 xf yf : ℚ)
    (hc00 : -1 ≤ c00 ∧ c00 ≤ 1) (hs00 : -1 ≤ s00 ∧ s00 ≤ 1)
    (hc10 : -1 ≤ c10 ∧ c10 ≤ 1) (hs10 : -1 ≤ s10 ∧ s10 ≤ 1)
    (hc01 : -1 ≤ c01 ∧ c01 ≤ 1) (hs01 : -1 ≤ s01 ∧ s01 ≤ 1)
    (hc11 : -1 ≤ c11 ∧ c11 ≤ 1) (hs11 : -1 ≤ s11 ∧ s11 ≤ 1)
    (hx0 : 0 ≤ xf) (hx1 : xf ≤ 1) (hy0 : 0 ≤ yf) (hy1 : yf ≤ 1) :
    -1 ≤ ((c00*xf + s00*yf) * (1 - interpolant xf)
            + interpolant xf * (c10*(xf-1) + s10*yf)) * (1 - interpolant yf)
          + interpolant yf * ((c01*xf + s01*(yf-1)) * (1 - interpolant xf)
            + interpolant xf * (c11*(xf-1) + s11*(yf-1))) ∧
    ((c00*xf + s00*yf) * (1 - interpolant xf)
            + interpolant xf * (c10*(xf-1) + s10*yf)) * (1 - interpolant yf)
          + interpolant yf * ((c01*xf + s01*(yf-1)) * (1 - interpolant xf)
            + interpolant xf * (c11*(xf-1) + s11*(yf-1))) ≤ 1 := by
  set u := interpolant xf with hu
  set v := interpolant yf with hv
  have hu0 : 0 ≤ u := interpolant_nonneg hx0
  have hu1 : u ≤ 1 := interpolant_le_one hx1
  have hv0 : 0 ≤ v := interpolant_nonneg hy0
  have hv1 : v ≤ 1 := interpolant_le_one hy1
  have keyx := interpolant_key hx0 hx1
  have keyy := interpolant_key hy0 hy1
  rw [← hu] at keyx
  rw [← hv] at keyy
  have d00 := dot_bound hc00.1 hc00.2 hs00.1 hs00.2 hx0 hy0
  have d10 : -((1-xf) + yf) ≤ c10*(xf-1) + s10*yf
      ∧ c10*(xf-1) + s10*yf ≤ (1-xf) + yf := by
    have hd := dot_bound (c := -c10) (s := s10) (a := 1-xf) (b := yf)
      (by linarith [hc10.2]) (by linarith [hc10.1]) hs10.1 hs10.2
      (by linarith) hy0
    constructor <;> linarith [hd.1, hd.2]
  have d01 : -(xf + (1-yf)) ≤ c01*xf + s01*(yf-1)
      ∧ c01*xf + s01*(yf-1) ≤ xf + (1-yf) := by
    have hd := dot_bound (c := c01) (s := -s01) (a := xf) (b := 1-yf)
      hc01.1 hc01.2 (by linarith [hs01.2]) (by linarith [hs01.1])
      hx0 (by linarith)
    constructor <;> linarith [hd.1, hd.2]
  have d11 : -((1-xf) + (1-yf)) ≤ c11*(xf-1) + s11*(yf-1)
      ∧ c11*(xf-1) + s11*(yf-1) ≤ (1-xf) + (1-yf) := by
    have hd := dot_bound (c := -c11) (s := -s11) (a := 1-xf) (b := 1-yf)
      (by linarith [hc11.2]) (by linarith [hc11.1])
      (by linarith [hs11.2]) (by linarith [hs11.1])
      (by linarith) (by linarith)
    constructor <;> linarith [hd.1, hd.2]
  have hnx0 := lerp_bound hu0 hu1 d00.1 d00.2 d10.1 d10.2
  have hnx1 := lerp_bound hu0 hu1 d01.1 d01.2 d11.1 d11.2
  have hcapx0 : (1-u)*(xf+yf) + u*((1-xf)+yf) ≤ yf + 1/2 := by linarith [keyx]
  have hcapx1 : (1-u)*(xf+(1-yf)) + u*((1-xf)+(1-yf)) ≤ (1-yf) + 1/2 := by
    linarith [keyx]
  have h0l : -(yf + 1/2)
      ≤ (c00*xf + s00*yf) * (1-u) + u * (c10*(xf-1) + s10*yf) :=
    le_trans (by linarith [hcapx0]) hnx0.1
  have h0u : (c00*xf + s00*yf) * (1-u) + u * (c10*(xf-1) + s10*yf)
      ≤ yf + 1/2 := le_trans hnx0.2 hcapx0
  have h1l : -((1-yf) + 1/2)
      ≤ (c01*xf + s01*(yf-1)) * (1-u) + u * (c11*(xf-1) + s11*(yf-1)) :=
    le_trans (by linarith [hcapx1]) hnx1.1
  have h1u : (c01*xf + s01*(yf-1)) * (1-u) + u * (c11*(xf-1) + s11*(yf-1))
      ≤ (1-yf) + 1/2 := le_trans hnx1.2 hcapx1
  have hfin := lerp_bound hv0 hv1 h0l h0u h1l h1u
  have hcapy : (1-v)*(yf + 1/2) + v*((1-yf) + 1/2) ≤ 1 := by linarith [keyy]
  exact ⟨by linarith [hfin.1, hcapy], by linarith [hfin.2, hcapy]⟩

theorem frac_bounds {q : ℚ} (hq : 0 ≤ q) :
    0 ≤ q - ((pyInt q).toNat : ℚ) ∧ q - ((pyInt q).toNat : ℚ) ≤ 1 := by
  rw [pyInt, if_pos hq]
  have h0 : (0:ℤ) ≤ ⌊q⌋ := Int.floor_nonneg.mpr hq
  have hc : ((⌊q⌋.toNat : ℕ) : ℚ) = ((⌊q⌋ : ℤ) : ℚ) := by
    exact_mod_cast Int.toNat_of_nonneg h0
  rw [hc]
  constructor
  · linarith [Int.floor_le q]
  · linarith [Int.lt_floor_add_one q]

theorem singleOctavePixel_bound (oracle : MathOracle)
    (hcos : ∀ a, -1 ≤ oracle.cos a ∧ oracle.cos a ≤ 1)
    (hsin : ∀ a, -1 ≤ oracle.sin a ∧ oracle.sin a ≤ 1)
    (rand : ℕ → ℕ → ℚ) (resY resX h w i j : ℕ) :
    -1 ≤ singleOctavePixel oracle rand resY resX h w i j ∧
    singleOctavePixel oracle rand resY resX h w i j ≤ 1 := by
  have hX : (0:ℚ) ≤ (resX : ℚ) * j / w := by positivity
  have hY : (0:ℚ) ≤ (resY : ℚ) * i / h := by positivity
  have hxf := frac_bounds hX
  have hyf := frac_bounds hY
  unfold singleOctavePixel gradAt
  exact blend_bound _ _ _ _ _ _ _ _ _ _
    (hcos _) (hsin _) (hcos _) (hsin _) (hcos _) (hsin _) (hcos _) (hsin _)
    hxf.1 hxf.2 hyf.1 hyf.2

theorem octaveFold_bound (f : ℕ → ℚ) (hf : ∀ o, -1 ≤ f o ∧ f o ≤ 1) :
    ∀ (l : List ℕ) (a1 a2 : ℚ), |a1| ≤ a2 →
      |l.foldl (fun acc o => acc + ((1:ℚ)/2)^o * f o) a1|
        ≤ l.foldl (fun acc o => acc + ((1:ℚ)/2)^o) a2 := by
  intro l
  induction l with
  | nil => intro a1 a2 hle; simpa using hle
  | cons o tl ih =>
    intro a1 a2 hle
    simp only [List.foldl_cons]
    apply ih
    have hpow : (0:ℚ) ≤ (1/2)^o := by positivity
    have habs : |((1:ℚ)/2)^o * f o| ≤ (1/2)^o := by
      rw [abs_mul, abs_of_nonneg hpow]
      have h1 : |f o| ≤ 1 := abs_le.mpr (hf o)
      nlinarith [abs_nonneg (f o)]
    calc |a1 + ((1:ℚ)/2)^o * f o|
        ≤ |a1| + |((1:ℚ)/2)^o * f o| := abs_add _ _
      _ ≤ a2 + (1/2)^o := by linarith

theorem ampFold_nonneg : ∀ (l : List ℕ) (a : ℚ), 0 ≤ a →
    0 ≤ l.foldl (fun acc o => acc + ((1:ℚ)/2)^o) a := by
  intro l
  induction l with
  | nil => intro a ha; simpa using ha
  | cons o tl ih =>
    intro a ha
    simp only [List.foldl_cons]
    apply ih
    have hp : (0:ℚ) ≤ (1/2)^o := by positivity
    linarith

/-- C3 (confirmed): every pixel of the multi-octave noise field produced by
`generate_perlin_noise_2d` lies in `[−1, 1]` after amplitude normalization,
for every output shape, base lattice resolution, octave count, and seeded or
ambient gradient stream — given only that the gradient components (cosines
and sines of the lattice angles) lie in `[−1, 1]`. -/
theorem perlin_values_in_unit_interval (oracle : MathOracle)
    (hcos : ∀ a, -1 ≤ oracle.cos a ∧ oracle.cos a ≤ 1)
    (hsin : ∀ a, -1 ≤ oracle.sin a ∧ oracle.sin a ≤ 1)
    (randFor : ℕ → ℕ → ℕ → ℚ) (resY resX octaves h w i j : ℕ) :
    -1 ≤ perlinPixel oracle randFor resY resX octaves h w i j ∧
    perlinPixel oracle randFor resY resX octaves h w i j ≤ 1 := by
  unfold perlinPixel
  set total := (List.range octaves).foldl
    (fun acc o => acc + ((1:ℚ)/2)^o *
      singleOctavePixel oracle (randFor o) (resY * 2^o) (resX * 2^o) h w i j)
    0 with htot
  set maxAmp := (List.range octaves).foldl
    (fun acc o => acc + ((1:ℚ)/2)^o) 0 with hamp
  have hb : |total| ≤ maxAmp := by
    rw [htot, hamp]
    exact octaveFold_bound _
      (fun o => singleOctavePixel_bound oracle hcos hsin (randFor o) _ _ _ _ _ _)
      (List.range octaves) 0 0 (by simp)
  have hnn : 0 ≤ maxAmp := by
    rw [hamp]
    exact ampFold_nonneg (List.range octaves) 0 le_rfl
  by_cases hz : maxAmp = 0
  · have htz : total = 0 := by
      rw [hz] at hb
      exact abs_eq_zero.mp (le_antisymm hb (abs_nonneg _))
    rw [if_neg (not_not_intro hz), htz]
    norm_num
  · rw [if_pos hz]
    have hpos : 0 < maxAmp := lt_of_le_of_ne hnn (Ne.symm hz)
    have habs := abs_le.mp hb
    constructor
    · rw [le_div_iff₀ hpos]
      nlinarith [habs.1]
    · rw [div_le_one hpos]
      exact habs.2

/-- Witness for `perlin_values_in_unit_interval` at a concrete oracle,
stream and geometry. -/
theorem perlin_values_in_unit_interval_witness :
    -1 ≤ perlinPixel cOracle cAmbient 2 2 1 8 8 0 1 ∧
    perlinPixel cOracle cAmbient 2 2 1 8 8 0 1 ≤ 1 :=
  perlin_values_in_unit_interval cOracle
    (fun a => by norm_num [cOracle]) (fun a => by norm_num [cOracle])
    cAmbient 2 2 1 8 8 0 1

/-- C1 (code_bug): quantization never reaches the drawn grid.  At the
concrete configuration `cParamsQ` (8×8 grid, `quantize_steps = 4`, no
swirl), the grid `render` hands to `draw_strokes` — the in-place content of
`grid[0]`, since `render` discards `fill_angles`' return value — holds at
cell `(0, 1)` the raw angle `75·π/256`, which is NOT an integer multiple of
the quantization step `2π/4`; the array `fill_angles` returns DOES hold the
snapped multiple `2π/4` there.  The claim (and `fill_angles`' docstring) say
the sampled grid is quantized; the code loses the quantized array because
`angles = np.round(...)` rebinds the local name instead of writing in place,
and `render` ignores the returned array. -/
theorem flow_quantize_discarded_at_bug_input :
    buildGrid cParamsQ = .ok (8, 8, ⟨0, 0, 80, 80⟩) ∧
    cParamsQ.quantize_steps = 4 ∧
    anglesInPlace cOracle cNpRand cAmbient cParamsQ 8 8 0 1 = 75 * npPi / 256 ∧
    (¬ ∃ k : ℤ, anglesInPlace cOracle cNpRand cAmbient cParamsQ 8 8 0 1
        = (k : ℚ) * (2 * npPi / 4)) ∧
    anglesReturned cOracle cNpRand cAmbient cParamsQ 8 8 0 1 = 2 * npPi / 4 := by
  have hsingle : ∀ rand : ℕ → ℕ → ℚ,
      singleOctavePixel cOracle rand 2 2 8 8 0 1 = 75/512 := by
    intro rand
    norm_num [singleOctavePixel, gradAt, cOracle, interpolant, pyInt]
  have hgrid : anglesInPlace cOracle cNpRand cAmbient cParamsQ 8 8 0 1
      = 75 * npPi / 256 := by
    simp only [anglesInPlace]
    rw [if_neg (by norm_num [cParamsQ] : ¬ cParamsQ.swirl > 0)]
    simp only [anglesNoise, cParamsQ]
    have hr1 : List.range 1 = [0] := rfl
    have ht2 : (2 : ℤ).toNat = 2 := rfl
    norm_num [perlinPixel, pyInt, hr1, ht2, hsingle]
    ring
  have hret : anglesReturned cOracle cNpRand cAmbient cParamsQ 8 8 0 1
      = 2 * npPi / 4 := by
    simp only [anglesReturned]
    rw [if_pos (by norm_num [cParamsQ] : cParamsQ.quantize_steps > 0)]
    rw [hgrid]
    have harg : 75 * npPi / 256 / (2 * npPi) * ((cParamsQ.quantize_steps : ℤ) : ℚ)
        = 75/128 := by
      norm_num [cParamsQ, npPi]
    rw [harg]
    have hr : npRound (75/128 : ℚ) = 1 := by
      unfold npRound
      norm_num
    rw [hr]
    norm_num [cParamsQ]
  refine ⟨buildGrid_cParamsQ, rfl, hgrid, ?_, hret⟩
  rintro ⟨k, hk⟩
  rw [hgrid] at hk
  rw [npPi] at hk
  norm_num at hk
  have h128 : (128 : ℚ) * (k : ℚ) = 75 := by linarith
  have h128' : (128 * k : ℤ) = 75 := by exact_mod_cast h128
  omega

/-- C10 (confirmed): for every LUT length `L ≥ 1`, every
`palette_within_stroke`, every raw base metric (clamped to [0,1] as the
source does) and every nonnegative segment progress `t`, the per-segment
LUT index computed by `draw_strokes` lies in `[0, L−1]`. -/
theorem lut_index_in_range (L : ℕ) (ws rawBase t : ℚ) (hL : 1 ≤ L) (ht : 0 ≤ t) :
    0 ≤ segIdx L (strokeSpanBase L ws (max 0 (min 1 rawBase))).1
        (strokeSpanBase L ws (max 0 (min 1 rawBase))).2 t ∧
    segIdx L (strokeSpanBase L ws (max 0 (min 1 rawBase))).1
        (strokeSpanBase L ws (max 0 (min 1 rawBase))).2 t ≤ (L : ℤ) - 1 := by
  set base := max 0 (min 1 rawBase) with hbase
  have hb0 : (0:ℚ) ≤ base := le_max_left _ _
  have hb1 : base ≤ 1 := max_le (by norm_num) (min_le_left _ _)
  by_cases hsmall : L ≤ 1
  · have h1 : L = 1 := le_antisymm hsmall hL
    subst h1
    norm_num [strokeSpanBase, segIdx, pyInt_zero]
  · simp only [strokeSpanBase, if_neg hsmall, segIdx]
    set sp := max 0 (pyInt (((L : ℚ) - 1) * ws)) with hsp
    set mb := max 0 ((L : ℤ) - 1 - sp) with hmb
    have hsp0 : (0:ℤ) ≤ sp := le_max_left _ _
    have hmb0 : (0:ℤ) ≤ mb := le_max_left _ _
    have hbi0 : 0 ≤ pyInt (base * (mb : ℚ)) :=
      pyInt_nonneg (mul_nonneg hb0 (by exact_mod_cast hmb0))
    have hbile : pyInt (base * (mb : ℚ)) ≤ mb :=
      pyInt_le_int (mul_nonneg hb0 (by exact_mod_cast hmb0))
        (mul_le_of_le_one_left (by exact_mod_cast hmb0) hb1)
    have hts0 : 0 ≤ pyInt (t * (sp : ℚ)) :=
      pyInt_nonneg (mul_nonneg ht (by exact_mod_cast hsp0))
    have hmble : mb ≤ (L : ℤ) - 1 := by
      rw [hmb]
      exact max_le (by omega) (by omega)
    constructor
    · split <;> omega
    · split <;> omega

/-- Witness for `lut_index_in_range`: a 3-colour LUT with
`palette_within_stroke = 5` (far outside [0,1]) and raw base metric 2. -/
theorem lut_index_in_range_witness :
    0 ≤ segIdx 3 (strokeSpanBase 3 5 (max 0 (min 1 2))).1
        (strokeSpanBase 3 5 (max 0 (min 1 2))).2 (1/2) ∧
    segIdx 3 (strokeSpanBase 3 5 (max 0 (min 1 2))).1
        (strokeSpanBase 3 5 (max 0 (min 1 2))).2 (1/2) ≤ (3 : ℤ) - 1 :=
  lut_index_in_range 3 5 2 (1/2) (by norm_num) (by norm_num)

end FlowField
